import Mathlib

/-!
Shallow embedding of the audio feature transforms of `src/src/audio.rs`
(`low_frame_rate`, `compute_decibel`) and proofs of the specified laws.

Modelling conventions:
* A dense 3-D `f32` buffer (`ndarray::Array3`, shape `(batch, time, hidden)`)
  is a shape triple plus a total entry function into `ℚ` (floating-point
  arithmetic idealised by exact rationals).
* A Rust panic (out-of-bounds slice index, `usize` subtraction underflow,
  `div_ceil` by zero) is `none`; a normal return is `some`.  The Rust
  function returns `PyResult` but has no `Err` path of its own, so `none`
  is exactly "the call aborts with a panic, no output is produced".
* Loops become `List.foldlM` over `Option`, threading the output buffer.
-/

/-- A dense 3-D buffer of shape `(batch, rows, cols)`.  Models
`ndarray::Array3<f32>` with entries idealised as rationals. -/
@[ext]
structure Arr3 where
  batch : ℕ
  rows : ℕ
  cols : ℕ
  entry : ℕ → ℕ → ℕ → ℚ

/-- Models `frames.slice(s![.., t, ..])`: reading time-slice `t` of every
batch.  Panics (`none`) when `t` is out of range, as `ndarray` slicing does. -/
def readRow (frames : Arr3) (t : ℕ) : Option (ℕ → ℕ → ℚ) :=
  if t < frames.rows then some (fun b k => frames.entry b t k) else none

/-- The in-place effect of `out.slice_mut(s![.., i, a..a+len]).assign(src)`:
row `i`, columns `[a, a+len)` of every batch are overwritten with `src`. -/
def writeSlot (out : Arr3) (i a len : ℕ) (src : ℕ → ℕ → ℚ) : Arr3 :=
  { out with entry := fun b r c =>
      if r = i ∧ a ≤ c ∧ c < a + len then src b (c - a) else out.entry b r c }

/-- Models `out.slice_mut(s![.., i, a..a+len]).assign(src)` including the
bounds check: `ndarray` panics (`none`) when the row index or the column
range falls outside the buffer's shape. -/
def assignSlot (out : Arr3) (i a len : ℕ) (src : ℕ → ℕ → ℚ) : Option Arr3 :=
  if i < out.rows ∧ a + len ≤ out.cols then some (writeSlot out i a len src)
  else none

/-- First-output-frame fill, part 1 (`audio.rs` lines 76–80):
`repeat_times + 1` copies of `frames[.., 0, ..]` into row 0. -/
def fillFirstPad (frames : Arr3) (n_hidden repeat_times : ℕ) (out : Arr3) :
    Option Arr3 :=
  (List.range (repeat_times + 1)).foldlM
    (fun acc i => do
      let src ← readRow frames 0
      assignSlot acc 0 (i * n_hidden) n_hidden src)
    out

/-- First-output-frame fill, part 2 (lines 81–87): `frames[.., 1 + i, ..]`
for `i` in `0 .. m - repeat_times - 1` — a read that is **not clamped**. -/
def fillFirstRest (frames : Arr3) (n_hidden m repeat_times : ℕ) (out : Arr3) :
    Option Arr3 :=
  (List.range (m - repeat_times - 1)).foldlM
    (fun acc i => do
      let src ← readRow frames (1 + i)
      assignSlot acc 0 ((repeat_times + i + 1) * n_hidden) n_hidden src)
    out

/-- One iteration of the main loop (lines 90–139), filling output frame
`i ≥ 1`: three branches on where the window starts relative to frame 0.
The window-straddles-zero branch reads `frames[.., j, ..]` unclamped; the
right-side branch clamps `start + j` to the last frame (`s![.., -1, ..]`). -/
def fillRow (frames : Arr3) (n_frames n_hidden m n repeat_times : ℕ)
    (acc : Arr3) (i : ℕ) : Option Arr3 :=
  if repeat_times > i * n then
    if repeat_times > i * n + m then
      -- window entirely left of frame 0: every slot reads frames[0]
      (List.range m).foldlM
        (fun a2 j => do
          let src ← readRow frames 0
          assignSlot a2 i (j * n_hidden) n_hidden src)
        acc
    else
      -- window straddles frame 0
      let n_left := repeat_times - i * n
      do
        let acc ← (List.range n_left).foldlM
          (fun a2 j => do
            let src ← readRow frames 0
            assignSlot a2 i (j * n_hidden) n_hidden src)
          acc
        (List.range (m - n_left)).foldlM
          (fun a2 j => do
            let src ← readRow frames j
            assignSlot a2 i ((j + n_left) * n_hidden) n_hidden src)
          acc
  else
    -- window start at or right of frame 0
    let start := i * n - repeat_times
    (List.range m).foldlM
      (fun a2 j =>
        if start + j ≥ n_frames then do
          let src ← readRow frames (n_frames - 1)  -- s![.., -1, ..]
          assignSlot a2 i (j * n_hidden) n_hidden src
        else do
          let src ← readRow frames (start + j)
          assignSlot a2 i (j * n_hidden) n_hidden src)
      acc

/-- `low_frame_rate` from `src/src/audio.rs` (lines 59–141), loop for loop.

* `n_output_frames = n_frames.div_ceil(n)`; `div_ceil` panics when `n = 0`.
* `repeat_times = (m - 1) / 2`; the `usize` subtraction `m - 1` underflows
  (a panic) when `m = 0`.
* The output starts as `Array3::zeros((batch, n_output_frames, n_hidden*m))`
  and is filled by the first-frame loops and then the main loop over
  `i` in `1 .. n_output_frames`. -/
def low_frame_rate (frames : Arr3) (m n : ℕ) : Option Arr3 :=
  let n_frames := frames.rows
  let n_hidden := frames.cols
  if n = 0 then none else
  let n_output_frames := (n_frames + n - 1) / n
  let output_frames : Arr3 :=
    ⟨frames.batch, n_output_frames, n_hidden * m, fun _ _ _ => 0⟩
  if m = 0 then none else
  let repeat_times := (m - 1) / 2
  fillFirstPad frames n_hidden repeat_times output_frames >>= fun o1 =>
  fillFirstRest frames n_hidden m repeat_times o1 >>= fun o2 =>
  (List.range' 1 (n_output_frames - 1)).foldlM
    (fillRow frames n_frames n_hidden m n repeat_times) o2

/-- The clamp of the spec: saturate the window index `w` into `[0, T-1]`. -/
def clampIdx (w : ℤ) (T : ℕ) : ℕ := (min (max w 0) ((T : ℤ) - 1)).toNat

/-- The source-frame index that the code copies into output row `i`,
slot `j` — read off branch by branch from `low_frame_rate`'s loops
(this is the characterization proved below, not part of the embedding). -/
def srcIdx (T m n rt : ℕ) (i j : ℕ) : ℕ :=
  if i = 0 then
    if j ≤ rt then 0 else j - rt
  else if rt > i * n then
    if rt > i * n + m then 0
    else if j < rt - i * n then 0 else j - (rt - i * n)
  else
    if i * n - rt + j ≥ T then T - 1 else i * n - rt + j

/-- Pure counterpart of a run of `k` slice assignments into row `i`,
slot-start `s j`, width `H`, copying source frame `idx j`. -/
def writeFold (frames : Arr3) (i H : ℕ) (idx s : ℕ → ℕ) (k : ℕ) (acc : Arr3) :
    Arr3 :=
  (List.range k).foldl
    (fun a j => writeSlot a i (s j) H (fun b kk => frames.entry b (idx j) kk))
    acc

/-- Scenario A input: batch 1, `T = 5` frames of dimension `H = 2`,
frame `t` is `[t, t]`. -/
def scenarioA : Arr3 := ⟨1, 5, 2, fun _ t _ => (t : ℚ)⟩

/-- Per-row statistic of `compute_decibel` (`audio.rs` line 154):
`row.pow2().sum().add(1e-6).log10() * 10.`, with `f32` arithmetic
idealised: the squared sum is exact in `ℚ` and `log10` is `Real.logb 10`. -/
noncomputable def row_decibel (row : List ℚ) : ℝ :=
  Real.logb 10 ((((row.map (fun x => x ^ 2)).sum : ℚ) : ℝ) + 1e-6) * 10

/-- `compute_decibel` from `src/src/audio.rs` (lines 143–161): map every
row to its decibel statistic (the parallel iterator is a pure map), then
reshape the flat buffer into a `(frame_len, 1)` column;
`into_shape_with_order(...).unwrap()` panics (`none`) if the buffer length
does not match `frame_len`. -/
noncomputable def compute_decibel (frames : List (List ℚ)) :
    Option (List (List ℝ)) :=
  let frame_len := frames.length
  let buffer := frames.map row_decibel
  if buffer.length = frame_len then some (buffer.map (fun x => [x])) else none

/-! ### Machinery: runs of slice assignments -/

theorem optionSomeBind {α β : Type} (a : α) (f : α → Option β) :
    some a >>= f = f a := rfl

theorem writeFold_zero (frames : Arr3) (i H : ℕ) (idx s : ℕ → ℕ) (acc : Arr3) :
    writeFold frames i H idx s 0 acc = acc := rfl

theorem writeFold_succ (frames : Arr3) (i H : ℕ) (idx s : ℕ → ℕ) (k : ℕ)
    (acc : Arr3) :
    writeFold frames i H idx s (k + 1) acc =
      writeSlot (writeFold frames i H idx s k acc) i (s k) H
        (fun b kk => frames.entry b (idx k) kk) := by
  unfold writeFold
  rw [List.range_succ, List.foldl_append]
  rfl

theorem writeFold_shape (frames : Arr3) (i H : ℕ) (idx s : ℕ → ℕ) (k : ℕ)
    (acc : Arr3) :
    (writeFold frames i H idx s k acc).batch = acc.batch ∧
    (writeFold frames i H idx s k acc).rows = acc.rows ∧
    (writeFold frames i H idx s k acc).cols = acc.cols := by
  induction k with
  | zero => exact ⟨rfl, rfl, rfl⟩
  | succ k ih => rw [writeFold_succ]; exact ih

/-- The entry function after a run of `k` assignments into row `i` with
slot starts `(off + j) * H`: column `c` of the region holds column `c % H`
of source frame `idx (c / H - off)`. -/
theorem writeFold_entry (frames : Arr3) (i H : ℕ) (idx s : ℕ → ℕ) (off : ℕ)
    (hs : ∀ j, s j = (off + j) * H) (k : ℕ) (acc : Arr3) (b r c : ℕ) :
    (writeFold frames i H idx s k acc).entry b r c =
      if r = i ∧ off * H ≤ c ∧ c < (off + k) * H then
        frames.entry b (idx (c / H - off)) (c % H)
      else acc.entry b r c := by
  induction k with
  | zero =>
    rw [writeFold_zero, if_neg]
    rintro ⟨-, h1, h2⟩
    rw [Nat.add_zero] at h2
    omega
  | succ k ih =>
    rw [writeFold_succ]
    show (if r = i ∧ s k ≤ c ∧ c < s k + H then
        frames.entry b (idx k) (c - s k)
      else (writeFold frames i H idx s k acc).entry b r c) = _
    rw [ih, hs k]
    by_cases hr : r = i
    · subst hr
      by_cases h1 : (off + k) * H ≤ c ∧ c < (off + k) * H + H
      · -- the column lies in the slot written by iteration k
        have hH : 0 < H := by
          rcases Nat.eq_zero_or_pos H with h | h
          · subst h; omega
          · exact h
        have hdiv : c / H = off + k :=
          Nat.div_eq_of_lt_le h1.1 (by simpa [Nat.succ_mul] using h1.2)
        have hmod : c % H = c - (off + k) * H := by
          have h3 := Nat.div_add_mod c H
          rw [hdiv, Nat.mul_comm] at h3
          omega
        have hlo : off * H ≤ c :=
          le_trans (Nat.mul_le_mul_right H (Nat.le_add_right off k)) h1.1
        have hhi : c < (off + (k + 1)) * H := by
          have : (off + (k + 1)) * H = (off + k) * H + H := by ring
          omega
        rw [if_pos ⟨rfl, h1.1, h1.2⟩, if_pos ⟨rfl, hlo, hhi⟩, hdiv, hmod]
        simp
      · -- untouched by iteration k: inside or outside the earlier region
        rw [if_neg (by tauto)]
        by_cases h2 : off * H ≤ c ∧ c < (off + k) * H
        · have hhi : c < (off + (k + 1)) * H := by
            have h4 : (off + k) * H ≤ (off + (k + 1)) * H :=
              Nat.mul_le_mul_right H (by omega)
            omega
          rw [if_pos ⟨rfl, h2.1, h2.2⟩, if_pos ⟨rfl, h2.1, hhi⟩]
        · rw [if_neg (by tauto), if_neg]
          rintro ⟨-, h3, h4⟩
          have h5 : (off + (k + 1)) * H = (off + k) * H + H := by ring
          omega
    · rw [if_neg (by tauto), if_neg (by tauto), if_neg (by tauto)]

/-- Success of the monadic run: when every read is in range and every slot
fits in the buffer, the `foldlM` of read-and-assign steps returns exactly
the pure `writeFold`. -/
theorem foldAssign_eq (frames : Arr3) (i H : ℕ) (idx s : ℕ → ℕ) (off : ℕ)
    (hs : ∀ j, s j = (off + j) * H) (k : ℕ)
    (hread : ∀ j, j < k → idx j < frames.rows) (acc : Arr3)
    (hrow : i < acc.rows) (hcols : (off + k) * H ≤ acc.cols) :
    (List.range k).foldlM
      (fun a j => do
        let src ← readRow frames (idx j)
        assignSlot a i (s j) H src) acc =
      some (writeFold frames i H idx s k acc) := by
  induction k with
  | zero => rfl
  | succ k ih =>
    rw [List.range_succ, List.foldlM_append]
    have hcols' : (off + k) * H ≤ acc.cols :=
      le_trans (Nat.mul_le_mul_right H (by omega)) hcols
    rw [ih (fun j hj => hread j (by omega)) hcols']
    simp only [optionSomeBind, List.foldlM_cons, List.foldlM_nil, bind_pure]
    rw [readRow, if_pos (hread k (by omega)), optionSomeBind]
    obtain ⟨hb, hr, hc⟩ := writeFold_shape frames i H idx s k acc
    rw [assignSlot, if_pos]
    · rw [writeFold_succ]
    · constructor
      · omega
      · rw [hc, hs k]
        have : (off + k) * H + H = (off + (k + 1)) * H := by ring
        omega

/-! ### Specifications of the individual loops -/

theorem fillFirstPad_spec (frames : Arr3) (rt : ℕ) (acc : Arr3)
    (hT : 1 ≤ frames.rows) (hrow : 0 < acc.rows)
    (hcols : (rt + 1) * frames.cols ≤ acc.cols) :
    ∃ out, fillFirstPad frames frames.cols rt acc = some out ∧
      out.batch = acc.batch ∧ out.rows = acc.rows ∧ out.cols = acc.cols ∧
      ∀ b r c, out.entry b r c =
        if r = 0 ∧ c < (rt + 1) * frames.cols then
          frames.entry b 0 (c % frames.cols)
        else acc.entry b r c := by
  have hs : ∀ j, j * frames.cols = (0 + j) * frames.cols := by
    intro j; rw [Nat.zero_add]
  refine ⟨writeFold frames 0 frames.cols (fun _ => 0) (fun j => j * frames.cols)
    (rt + 1) acc, ?_, ?_, ?_, ?_, ?_⟩
  · unfold fillFirstPad
    exact foldAssign_eq frames 0 frames.cols (fun _ => 0)
      (fun j => j * frames.cols) 0 hs (rt + 1) (fun j _ => hT) acc hrow
      (by rw [Nat.zero_add]; exact hcols)
  · exact (writeFold_shape _ _ _ _ _ _ _).1
  · exact (writeFold_shape _ _ _ _ _ _ _).2.1
  · exact (writeFold_shape _ _ _ _ _ _ _).2.2
  · intro b r c
    rw [writeFold_entry frames 0 frames.cols _ _ 0 hs (rt + 1) acc b r c]
    simp only [Nat.zero_mul, Nat.zero_le, true_and, Nat.zero_add]

theorem fillFirstRest_spec (frames : Arr3) (m rt : ℕ) (acc : Arr3)
    (hmT : m ≤ frames.rows) (hrtm : rt + 1 ≤ m) (hrow : 0 < acc.rows)
    (hcols : m * frames.cols ≤ acc.cols) :
    ∃ out, fillFirstRest frames frames.cols m rt acc = some out ∧
      out.batch = acc.batch ∧ out.rows = acc.rows ∧ out.cols = acc.cols ∧
      ∀ b r c, out.entry b r c =
        if r = 0 ∧ (rt + 1) * frames.cols ≤ c ∧ c < m * frames.cols then
          frames.entry b (1 + (c / frames.cols - (rt + 1))) (c % frames.cols)
        else acc.entry b r c := by
  have hs : ∀ j, (rt + j + 1) * frames.cols = ((rt + 1) + j) * frames.cols := by
    intro j; ring
  have hk : (rt + 1) + (m - rt - 1) = m := by omega
  refine ⟨writeFold frames 0 frames.cols (fun j => 1 + j)
    (fun j => (rt + j + 1) * frames.cols) (m - rt - 1) acc, ?_, ?_, ?_, ?_, ?_⟩
  · unfold fillFirstRest
    exact foldAssign_eq frames 0 frames.cols (fun j => 1 + j)
      (fun j => (rt + j + 1) * frames.cols) (rt + 1) hs (m - rt - 1)
      (fun j hj => by show 1 + j < frames.rows; omega) acc hrow
      (by rw [hk]; exact hcols)
  · exact (writeFold_shape _ _ _ _ _ _ _).1
  · exact (writeFold_shape _ _ _ _ _ _ _).2.1
  · exact (writeFold_shape _ _ _ _ _ _ _).2.2
  · intro b r c
    rw [writeFold_entry frames 0 frames.cols _ _ (rt + 1) hs (m - rt - 1) acc b r c]
    rw [hk]


theorem fillRow_spec (frames : Arr3) (m n rt i : ℕ) (acc : Arr3)
    (hm : 1 ≤ m) (hi : 1 ≤ i) (hmT : m ≤ frames.rows)
    (hrow : i < acc.rows) (hcols : m * frames.cols ≤ acc.cols) :
    ∃ out, fillRow frames frames.rows frames.cols m n rt acc i = some out ∧
      out.batch = acc.batch ∧ out.rows = acc.rows ∧ out.cols = acc.cols ∧
      ∀ b r c, out.entry b r c =
        if r = i ∧ c < m * frames.cols then
          frames.entry b (srcIdx frames.rows m n rt i (c / frames.cols))
            (c % frames.cols)
        else acc.entry b r c := by
  have hs0 : ∀ j, j * frames.cols = (0 + j) * frames.cols := fun j => by
    rw [Nat.zero_add]
  simp only [fillRow]
  by_cases h1 : rt > i * n
  · rw [if_pos h1]
    by_cases h2 : rt > i * n + m
    · -- window entirely left of frame 0
      rw [if_pos h2]
      refine ⟨writeFold frames i frames.cols (fun _ => 0)
        (fun j => j * frames.cols) m acc, ?_, ?_, ?_, ?_, ?_⟩
      · exact foldAssign_eq frames i frames.cols (fun _ => 0)
          (fun j => j * frames.cols) 0 hs0 m
          (fun j hj => by show 0 < frames.rows; omega) acc hrow
          (by rw [Nat.zero_add]; exact hcols)
      · exact (writeFold_shape _ _ _ _ _ _ _).1
      · exact (writeFold_shape _ _ _ _ _ _ _).2.1
      · exact (writeFold_shape _ _ _ _ _ _ _).2.2
      · intro b r c
        rw [writeFold_entry frames i frames.cols _ _ 0 hs0 m acc b r c]
        simp only [Nat.zero_mul, Nat.zero_le, true_and, Nat.zero_add]
        by_cases h3 : r = i ∧ c < m * frames.cols
        · rw [if_pos h3, if_pos h3, srcIdx, if_neg (by omega : ¬ i = 0),
            if_pos h1, if_pos h2]
        · rw [if_neg h3, if_neg h3]
    · -- window straddles frame 0
      rw [if_neg h2]
      have hnl : rt - i * n ≤ m := by omega
      have e1 := foldAssign_eq frames i frames.cols (fun _ => 0)
        (fun j => j * frames.cols) 0 hs0 (rt - i * n)
        (fun j hj => by show 0 < frames.rows; omega) acc hrow
        (by rw [Nat.zero_add]
            exact le_trans (Nat.mul_le_mul_right _ hnl) hcols)
      rw [e1, optionSomeBind]
      obtain ⟨hb1, hr1, hc1⟩ := writeFold_shape frames i frames.cols
        (fun _ => 0) (fun j => j * frames.cols) (rt - i * n) acc
      have hs2 : ∀ j, (j + (rt - i * n)) * frames.cols =
          ((rt - i * n) + j) * frames.cols := fun j => by ring
      have hsum : (rt - i * n) + (m - (rt - i * n)) = m := by omega
      have e2 := foldAssign_eq frames i frames.cols (fun j => j)
        (fun j => (j + (rt - i * n)) * frames.cols) (rt - i * n) hs2
        (m - (rt - i * n))
        (fun j hj => by show j < frames.rows; omega)
        (writeFold frames i frames.cols (fun _ => 0)
          (fun j => j * frames.cols) (rt - i * n) acc)
        (by rw [hr1]; exact hrow)
        (by rw [hc1, hsum]; exact hcols)
      rw [e2]
      refine ⟨_, rfl, ?_, ?_, ?_, ?_⟩
      · rw [(writeFold_shape _ _ _ _ _ _ _).1, hb1]
      · rw [(writeFold_shape _ _ _ _ _ _ _).2.1, hr1]
      · rw [(writeFold_shape _ _ _ _ _ _ _).2.2, hc1]
      · intro b r c
        rw [writeFold_entry frames i frames.cols _ _ (rt - i * n) hs2
          (m - (rt - i * n)) _ b r c]
        rw [writeFold_entry frames i frames.cols _ _ 0 hs0 (rt - i * n) acc b r c]
        simp only [Nat.zero_mul, Nat.zero_le, true_and, Nat.zero_add, hsum]
        by_cases hr : r = i
        case neg =>
          rw [if_neg (fun h => hr h.1), if_neg (fun h => hr h.1),
            if_neg (fun h => hr h.1)]
        case pos =>
          subst hr
          have hge2 : (rt - r * n) * frames.cols ≤ m * frames.cols :=
            Nat.mul_le_mul_right _ hnl
          by_cases hcm : c < m * frames.cols
          case neg =>
            rw [if_neg (by omega), if_neg (by omega), if_neg (by omega)]
          case pos =>
            have hH : 0 < frames.cols := by
              rcases Nat.eq_zero_or_pos frames.cols with h | h
              · rw [h, Nat.mul_zero] at hcm; omega
              · exact h
            rw [srcIdx, if_neg (by omega : ¬ r = 0), if_pos h1, if_neg h2]
            by_cases hlt : c < (rt - r * n) * frames.cols
            · have hdl : c / frames.cols < rt - r * n :=
                (Nat.div_lt_iff_lt_mul hH).mpr hlt
              rw [if_neg (by omega), if_pos ⟨rfl, hlt⟩, if_pos ⟨rfl, hcm⟩,
                if_pos hdl]
            · have hge : (rt - r * n) * frames.cols ≤ c := by omega
              have hdge : rt - r * n ≤ c / frames.cols :=
                (Nat.le_div_iff_mul_le hH).mpr hge
              rw [if_pos ⟨rfl, hge, hcm⟩, if_pos ⟨rfl, hcm⟩,
                if_neg (by omega : ¬ c / frames.cols < rt - r * n)]
  · -- window start at or right of frame 0
    rw [if_neg h1]
    have hbody : (fun (a2 : Arr3) (j : ℕ) =>
        if i * n - rt + j ≥ frames.rows then do
          let src ← readRow frames (frames.rows - 1)
          assignSlot a2 i (j * frames.cols) frames.cols src
        else do
          let src ← readRow frames (i * n - rt + j)
          assignSlot a2 i (j * frames.cols) frames.cols src) =
        (fun (a2 : Arr3) (j : ℕ) => do
          let src ← readRow frames
            (if i * n - rt + j ≥ frames.rows then frames.rows - 1
             else i * n - rt + j)
          assignSlot a2 i (j * frames.cols) frames.cols src) := by
      funext a2 j
      by_cases hc : i * n - rt + j ≥ frames.rows
      · rw [if_pos hc, if_pos hc]
      · rw [if_neg hc, if_neg hc]
    rw [hbody]
    refine ⟨writeFold frames i frames.cols
      (fun j => if i * n - rt + j ≥ frames.rows then frames.rows - 1
                else i * n - rt + j)
      (fun j => j * frames.cols) m acc, ?_, ?_, ?_, ?_, ?_⟩
    · exact foldAssign_eq frames i frames.cols _
        (fun j => j * frames.cols) 0 hs0 m
        (fun j hj => by
          show (if i * n - rt + j ≥ frames.rows then frames.rows - 1
                else i * n - rt + j) < frames.rows
          split <;> omega) acc hrow
        (by rw [Nat.zero_add]; exact hcols)
    · exact (writeFold_shape _ _ _ _ _ _ _).1
    · exact (writeFold_shape _ _ _ _ _ _ _).2.1
    · exact (writeFold_shape _ _ _ _ _ _ _).2.2
    · intro b r c
      rw [writeFold_entry frames i frames.cols _ _ 0 hs0 m acc b r c]
      simp only [Nat.zero_mul, Nat.zero_le, true_and, Nat.zero_add, Nat.sub_zero]
      by_cases h3 : r = i ∧ c < m * frames.cols
      · rw [if_pos h3, if_pos h3, srcIdx, if_neg (by omega : ¬ i = 0),
          if_neg h1]
      · rw [if_neg h3, if_neg h3]

theorem fillRows_spec (frames : Arr3) (m n rt : ℕ)
    (hm : 1 ≤ m) (hmT : m ≤ frames.rows) :
    ∀ (t : ℕ) (acc : Arr3), 1 + t ≤ acc.rows → m * frames.cols ≤ acc.cols →
    ∃ out, (List.range' 1 t).foldlM
        (fillRow frames frames.rows frames.cols m n rt) acc = some out ∧
      out.batch = acc.batch ∧ out.rows = acc.rows ∧ out.cols = acc.cols ∧
      ∀ b r c, out.entry b r c =
        if 1 ≤ r ∧ r < 1 + t ∧ c < m * frames.cols then
          frames.entry b (srcIdx frames.rows m n rt r (c / frames.cols))
            (c % frames.cols)
        else acc.entry b r c := by
  intro t
  induction t with
  | zero =>
    intro acc h1 h2
    refine ⟨acc, rfl, rfl, rfl, rfl, fun b r c => ?_⟩
    rw [if_neg]
    rintro ⟨hx, hy, -⟩
    omega
  | succ t ih =>
    intro acc h1 h2
    rw [List.range'_concat, List.foldlM_append]
    obtain ⟨o1, e1, hb1, hr1, hc1, hent1⟩ := ih acc (by omega) h2
    rw [e1, optionSomeBind]
    simp only [Nat.one_mul, List.foldlM_cons, List.foldlM_nil, bind_pure]
    obtain ⟨o2, e2, hb2, hr2, hc2, hent2⟩ :=
      fillRow_spec frames m n rt (1 + t) o1 hm (by omega) hmT
        (by rw [hr1]; omega) (by rw [hc1]; exact h2)
    rw [e2]
    refine ⟨o2, rfl, by rw [hb2, hb1], by rw [hr2, hr1], by rw [hc2, hc1],
      fun b r c => ?_⟩
    rw [hent2, hent1]
    by_cases hA : r = 1 + t ∧ c < m * frames.cols
    · obtain ⟨hr, hcc⟩ := hA
      subst hr
      rw [if_pos ⟨rfl, hcc⟩, if_pos ⟨by omega, by omega, hcc⟩]
    · rw [if_neg hA]
      by_cases hB : 1 ≤ r ∧ r < 1 + t ∧ c < m * frames.cols
      · rw [if_pos hB, if_pos ⟨hB.1, by omega, hB.2.2⟩]
      · rw [if_neg hB, if_neg]
        rintro ⟨ha2, hb2', hc2'⟩
        have hne : r ≠ 1 + t := fun h => hA ⟨h, hc2'⟩
        exact hB ⟨ha2, by omega, hc2'⟩

/-- Master specification of `low_frame_rate` for `1 ≤ m`, `1 ≤ n`,
`m ≤ T`: the call returns normally, the output has shape
`(batch, ceil(T/n), H*m)`, and output slot `(i, j)` holds a copy of source
frame `srcIdx T m n ((m-1)/2) i j`. -/
theorem low_frame_rate_spec (frames : Arr3) (m n : ℕ)
    (hm : 1 ≤ m) (hn : 1 ≤ n) (hmT : m ≤ frames.rows) :
    ∃ out, low_frame_rate frames m n = some out ∧
      out.batch = frames.batch ∧
      out.rows = (frames.rows + n - 1) / n ∧
      out.cols = frames.cols * m ∧
      ∀ b i j k, i < (frames.rows + n - 1) / n → j < m → k < frames.cols →
        out.entry b i (j * frames.cols + k) =
          frames.entry b (srcIdx frames.rows m n ((m - 1) / 2) i j) k := by
  have hT : 1 ≤ frames.rows := by omega
  have hF1 : 1 ≤ (frames.rows + n - 1) / n :=
    (Nat.le_div_iff_mul_le hn).mpr (by omega)
  have hrtm : (m - 1) / 2 + 1 ≤ m := by omega
  simp only [low_frame_rate]
  rw [if_neg (by omega : ¬ n = 0), if_neg (by omega : ¬ m = 0)]
  obtain ⟨o1, e1, hb1, hr1, hc1, hent1⟩ :=
    fillFirstPad_spec frames ((m - 1) / 2)
      ⟨frames.batch, (frames.rows + n - 1) / n, frames.cols * m, fun _ _ _ => 0⟩
      hT (by show 0 < (frames.rows + n - 1) / n; omega)
      (by show ((m - 1) / 2 + 1) * frames.cols ≤ frames.cols * m
          rw [Nat.mul_comm frames.cols m]
          exact Nat.mul_le_mul_right _ hrtm)
  rw [e1, optionSomeBind]
  obtain ⟨o2, e2, hb2, hr2, hc2, hent2⟩ :=
    fillFirstRest_spec frames m ((m - 1) / 2) o1 hmT hrtm
      (by rw [hr1]; show 0 < (frames.rows + n - 1) / n; omega)
      (by rw [hc1]; show m * frames.cols ≤ frames.cols * m
          rw [Nat.mul_comm frames.cols m])
  rw [e2, optionSomeBind]
  obtain ⟨o3, e3, hb3, hr3, hc3, hent3⟩ :=
    fillRows_spec frames m n ((m - 1) / 2) hm hmT
      ((frames.rows + n - 1) / n - 1) o2
      (by rw [hr2, hr1]; exact le_of_eq (Nat.add_sub_cancel' hF1))
      (by rw [hc2, hc1]; show m * frames.cols ≤ frames.cols * m
          rw [Nat.mul_comm frames.cols m])
  rw [e3]
  have hFF : 1 + ((frames.rows + n - 1) / n - 1) = (frames.rows + n - 1) / n :=
    Nat.add_sub_cancel' hF1
  simp only [hFF] at hent3
  refine ⟨o3, rfl, by rw [hb3, hb2, hb1], by rw [hr3, hr2, hr1],
    by rw [hc3, hc2, hc1], fun b i j k hiF hjm hkH => ?_⟩
  have hH : 0 < frames.cols := by omega
  have hsucc : (j + 1) * frames.cols = j * frames.cols + frames.cols := by
    rw [Nat.succ_mul]
  have hjc : (j + 1) * frames.cols ≤ m * frames.cols :=
    Nat.mul_le_mul_right _ (by omega)
  have hcH : j * frames.cols + k < m * frames.cols := by omega
  have hdiv : (j * frames.cols + k) / frames.cols = j :=
    Nat.div_eq_of_lt_le (Nat.le_add_right _ _) (by rw [Nat.succ_mul]; omega)
  have hmod : (j * frames.cols + k) % frames.cols = k := by
    rw [Nat.mul_comm, Nat.mul_add_mod]
    exact Nat.mod_eq_of_lt hkH
  rw [hent3]
  by_cases hi1 : 1 ≤ i
  · rw [if_pos ⟨hi1, hiF, hcH⟩, hdiv, hmod]
  · have hi0 : i = 0 := by omega
    subst hi0
    rw [if_neg (by rintro ⟨hx, -, -⟩; omega)]
    rw [hent2, hent1]
    by_cases hjrt : j ≤ (m - 1) / 2
    · have hlt1 : j * frames.cols + k < ((m - 1) / 2 + 1) * frames.cols := by
        have : (j + 1) * frames.cols ≤ ((m - 1) / 2 + 1) * frames.cols :=
          Nat.mul_le_mul_right _ (by omega)
        omega
      rw [if_neg (by rintro ⟨-, hx, -⟩; omega), if_pos ⟨rfl, hlt1⟩, hmod,
        srcIdx, if_pos rfl, if_pos hjrt]
    · have hge1 : ((m - 1) / 2 + 1) * frames.cols ≤ j * frames.cols + k := by
        have : ((m - 1) / 2 + 1) * frames.cols ≤ j * frames.cols :=
          Nat.mul_le_mul_right _ (by omega)
        omega
      rw [if_pos ⟨rfl, hge1, hcH⟩, hdiv, hmod, srcIdx, if_pos rfl,
        if_neg hjrt]
      have : 1 + (j - ((m - 1) / 2 + 1)) = j - (m - 1) / 2 := by omega
      rw [this]

/-- `clampIdx` below its lower bound. -/
theorem clampIdx_nonpos (w : ℤ) (T : ℕ) (hw : w ≤ 0) (hT : 1 ≤ T) :
    clampIdx w T = 0 := by
  unfold clampIdx
  omega

/-- `clampIdx` in range. -/
theorem clampIdx_mid (w : ℤ) (T : ℕ) (hw : 0 ≤ w) (hw2 : w ≤ (T : ℤ) - 1) :
    clampIdx w T = w.toNat := by
  unfold clampIdx
  omega

/-- `clampIdx` above its upper bound. -/
theorem clampIdx_high (w : ℤ) (T : ℕ) (hw : (T : ℤ) - 1 ≤ w) (hT : 1 ≤ T) :
    clampIdx w T = T - 1 := by
  unfold clampIdx
  omega

/-- The branch-by-branch source index of the code agrees with the spec’s
single clamped-window formula whenever `1 ≤ m ≤ T`. -/
theorem srcIdx_eq_clamp (T m n i j : ℕ) (hm : 1 ≤ m) (hmT : m ≤ T)
    (hj : j < m) :
    srcIdx T m n ((m - 1) / 2) i j =
      clampIdx ((i : ℤ) * n - ((m : ℤ) - 1) / 2 + j) T := by
  have hT : 1 ≤ T := le_trans hm hmT
  have hrtv : ((m : ℤ) - 1) / 2 = (((m - 1) / 2 : ℕ) : ℤ) := by omega
  have hrtm : ((m - 1) / 2 : ℕ) + 1 ≤ m := by omega
  rw [hrtv]
  by_cases hi : i = 0
  · subst hi
    rw [srcIdx, if_pos rfl]
    simp only [Nat.cast_zero, zero_mul]
    by_cases hjr : j ≤ (m - 1) / 2
    · rw [if_pos hjr, clampIdx_nonpos _ _ (by omega) hT]
    · rw [if_neg hjr, clampIdx_mid _ _ (by omega) (by omega)]
      omega
  · rw [srcIdx, if_neg hi]
    have hcast : ((i : ℤ) * n) = ((i * n : ℕ) : ℤ) := by push_cast; ring
    rw [hcast]
    by_cases h1 : (m - 1) / 2 > i * n
    · rw [if_pos h1]
      by_cases h2 : (m - 1) / 2 > i * n + m
      · rw [if_pos h2, clampIdx_nonpos _ _ (by omega) hT]
      · rw [if_neg h2]
        by_cases h3 : j < (m - 1) / 2 - i * n
        · rw [if_pos h3, clampIdx_nonpos _ _ (by omega) hT]
        · rw [if_neg h3, clampIdx_mid _ _ (by omega) (by omega)]
          omega
    · rw [if_neg h1]
      by_cases h4 : i * n - (m - 1) / 2 + j ≥ T
      · rw [if_pos h4, clampIdx_high _ _ (by omega) hT]
      · rw [if_neg h4, clampIdx_mid _ _ (by omega) (by omega)]
        omega

/-- With `T = 0` the very first fill loop reads `frames[.., 0, ..]`, which
is out of bounds: the call panics. -/
theorem fillFirstPad_none (frames : Arr3) (H rt : ℕ) (acc : Arr3)
    (hT : frames.rows = 0) : fillFirstPad frames H rt acc = none := by
  unfold fillFirstPad
  rw [List.range_succ_eq_map, List.foldlM_cons, readRow, if_neg (by omega)]
  rfl

/-- `n = 0` makes `div_ceil` panic before anything else happens. -/
theorem low_frame_rate_n_zero (frames : Arr3) (m : ℕ) :
    low_frame_rate frames m 0 = none := by
  simp [low_frame_rate]

/-- `m = 0` makes the `usize` subtraction `m - 1` underflow (for any
`n ≠ 0`; with `n = 0` the `div_ceil` panics first). -/
theorem low_frame_rate_m_zero (frames : Arr3) (n : ℕ) :
    low_frame_rate frames 0 n = none := by
  simp [low_frame_rate]

/-- `T = 0` always panics: either `n = 0` or `m = 0` panic first, or the
first-frame fill reads the non-existent `frames[.., 0, ..]`. -/
theorem low_frame_rate_T_zero (frames : Arr3) (m n : ℕ)
    (hT : frames.rows = 0) :
    low_frame_rate frames m n = none := by
  simp only [low_frame_rate]
  by_cases hn : n = 0
  · rw [if_pos hn]
  · rw [if_neg hn]
    by_cases hm : m = 0
    · rw [if_pos hm]
    · rw [if_neg hm]
      rw [fillFirstPad_none frames frames.cols ((m - 1) / 2) _ hT]
      rfl

/-! ### Claim theorems: `low_frame_rate` -/

/-- C1 (counterexample to the claim as stated): at the valid input
`T = 1, H = 1, m = 2, n = 1` (batch 1) the first-output-frame fill reads
the out-of-bounds `frames[.., 1, ..]`, so the call panics and produces no
output at all — in particular no slot equal to the clamped source frame
required by the claim for every `T ≥ 1`. -/
theorem C1_counterexample :
    (low_frame_rate ⟨1, 1, 1, fun _ _ _ => 0⟩ 2 1).isSome = false := by
  decide

/-- C1 (amended with `T ≥ m`): for `m ≥ 1`, `n ≥ 1`, `H ≥ 1` and `T ≥ m`,
every `H`-wide output slot `[i, j*H : (j+1)*H]` of `low_frame_rate` is a
copy of source frame `clamp(i*n - (m-1)/2 + j, 0, T-1)`, with `(m-1)/2` by
integer floor division, for every batch index. -/
theorem C1_clamp_law (frames : Arr3) (m n : ℕ)
    (hm : 1 ≤ m) (hn : 1 ≤ n) (hH : 1 ≤ frames.cols) (hmT : m ≤ frames.rows) :
    ∃ out, low_frame_rate frames m n = some out ∧
      ∀ b i j k, b < frames.batch → i < (frames.rows + n - 1) / n → j < m →
        k < frames.cols →
        out.entry b i (j * frames.cols + k) =
          frames.entry b
            (clampIdx ((i : ℤ) * n - ((m : ℤ) - 1) / 2 + j) frames.rows) k := by
  obtain ⟨out, he, -, -, -, hent⟩ := low_frame_rate_spec frames m n hm hn hmT
  refine ⟨out, he, fun b i j k hb hi hj hk => ?_⟩
  rw [hent b i j k hi hj hk, srcIdx_eq_clamp frames.rows m n i j hm hmT hj]

/-- C1 witness: the amended clamp law instantiated at Scenario A's input
with `m = 3`, `n = 2`. -/
theorem C1_clamp_law_witness :
    ∃ out, low_frame_rate scenarioA 3 2 = some out ∧
      ∀ b i j k, b < scenarioA.batch → i < (scenarioA.rows + 2 - 1) / 2 →
        j < 3 → k < scenarioA.cols →
        out.entry b i (j * scenarioA.cols + k) =
          scenarioA.entry b
            (clampIdx ((i : ℤ) * 2 - ((3 : ℤ) - 1) / 2 + j) scenarioA.rows) k :=
  C1_clamp_law scenarioA 3 2 (by decide) (by decide) (by decide) (by decide)

/-- C2 (counterexample to the claim as stated): the claim requires a
failure whenever `H = 0`, but at `T = 2, H = 0, m = 1, n = 1` the call
succeeds and returns a (zero-width) output. -/
theorem C2_counterexample :
    (low_frame_rate ⟨1, 2, 0, fun _ _ _ => 0⟩ 1 1).isSome = true := by
  decide

/-- C2 (amended): `low_frame_rate` never returns an `InvalidShape` error
value — it has no error path at all.  Instead it panics (no output) when
`n = 0` (`div_ceil` by zero), `m = 0` (`usize` underflow in `m - 1`) or
`T = 0` (out-of-bounds read of `frames[.., 0, ..]`), and it returns
normally whenever `1 ≤ m ≤ T` and `1 ≤ n` — including when `H = 0`. -/
theorem C2_no_invalid_shape_error (frames : Arr3) (m n : ℕ) :
    (n = 0 → low_frame_rate frames m n = none) ∧
    (m = 0 → low_frame_rate frames m n = none) ∧
    (frames.rows = 0 → low_frame_rate frames m n = none) ∧
    (1 ≤ m → 1 ≤ n → m ≤ frames.rows →
      (low_frame_rate frames m n).isSome = true) := by
  refine ⟨fun h => ?_, fun h => ?_, fun h => ?_, fun hm hn hmT => ?_⟩
  · subst h; exact low_frame_rate_n_zero frames m
  · subst h; exact low_frame_rate_m_zero frames n
  · exact low_frame_rate_T_zero frames m n h
  · obtain ⟨out, he, -⟩ := low_frame_rate_spec frames m n hm hn hmT
    rw [he]; rfl

/-- C2 witness: a `T = 0` call panics, and an `H = 0` call with
`1 ≤ m ≤ T`, `1 ≤ n` succeeds. -/
theorem C2_no_invalid_shape_error_witness :
    low_frame_rate ⟨1, 0, 1, fun _ _ _ => 0⟩ 1 1 = none ∧
    (low_frame_rate ⟨1, 3, 0, fun _ _ _ => 0⟩ 2 1).isSome = true :=
  ⟨(C2_no_invalid_shape_error ⟨1, 0, 1, fun _ _ _ => 0⟩ 1 1).2.2.1 rfl,
   (C2_no_invalid_shape_error ⟨1, 3, 0, fun _ _ _ => 0⟩ 2 1).2.2.2
     (by decide) (by decide) (by decide)⟩

/-- C3: Scenario A — `T = 5`, `H = 2`, frames `[v, v]` for `v = 0..4`,
`m = 3`, `n = 2` yields exactly 3 output frames of width 6 equal to
`[0,0,0,0,1,1]`, `[1,1,2,2,3,3]`, `[3,3,4,4,4,4]`. -/
theorem C3_scenarioA :
    (low_frame_rate scenarioA 3 2).map
      (fun o => (o.rows, o.cols,
        (List.range 3).map (fun i => (List.range 6).map (fun c => o.entry 0 i c)))) =
    some (3, 6, [[0, 0, 0, 0, 1, 1], [1, 1, 2, 2, 3, 3], [3, 3, 4, 4, 4, 4]]) := by
  decide

/-- C4 (counterexample to the claim as stated): at the valid input
`T = 1, H = 1, m = 3, n = 1` the call panics (unclamped read of
`frames[.., 1, ..]` in the first-output-frame fill) and returns no buffer
of any shape. -/
theorem C4_counterexample :
    (low_frame_rate ⟨1, 1, 1, fun _ _ _ => 0⟩ 3 1).isSome = false := by
  decide

/-- C4 (amended with `T ≥ m`): for `T ≥ m ≥ 1`, `H ≥ 1`, `n ≥ 1` the
output buffer exists and has shape exactly
`(batch_size, ceil(T/n), H*m)` (`ceil(T/n) = (T + n - 1) / n`). -/
theorem C4_shape_law (frames : Arr3) (m n : ℕ)
    (hm : 1 ≤ m) (hn : 1 ≤ n) (hH : 1 ≤ frames.cols) (hmT : m ≤ frames.rows) :
    ∃ out, low_frame_rate frames m n = some out ∧
      out.batch = frames.batch ∧
      out.rows = (frames.rows + n - 1) / n ∧
      out.cols = frames.cols * m := by
  obtain ⟨out, he, hb, hr, hc, -⟩ := low_frame_rate_spec frames m n hm hn hmT
  exact ⟨out, he, hb, hr, hc⟩

/-- C4 witness: the shape law instantiated at a batch-2 input with
`T = 4`, `H = 1`, `m = 3`, `n = 2`. -/
theorem C4_shape_law_witness :
    ∃ out, low_frame_rate ⟨2, 4, 1, fun _ t _ => (t : ℚ)⟩ 3 2 = some out ∧
      out.batch = 2 ∧ out.rows = (4 + 2 - 1) / 2 ∧ out.cols = 1 * 3 :=
  C4_shape_law ⟨2, 4, 1, fun _ t _ => (t : ℚ)⟩ 3 2
    (by decide) (by decide) (by decide) (by decide)

/-- C5: identity law — for `T ≥ 1`, `H ≥ 1`, `low_frame_rate` with
`m = 1`, `n = 1` returns a buffer of the input's shape that is
element-wise equal to the input. -/
theorem C5_identity_law (frames : Arr3)
    (hT : 1 ≤ frames.rows) (hH : 1 ≤ frames.cols) :
    ∃ out, low_frame_rate frames 1 1 = some out ∧
      out.batch = frames.batch ∧ out.rows = frames.rows ∧
      out.cols = frames.cols ∧
      ∀ b t k, b < frames.batch → t < frames.rows → k < frames.cols →
        out.entry b t k = frames.entry b t k := by
  obtain ⟨out, he, hb, hr, hc, hent⟩ :=
    low_frame_rate_spec frames 1 1 le_rfl le_rfl hT
  have hFT : (frames.rows + 1 - 1) / 1 = frames.rows := by omega
  refine ⟨out, he, hb, by rw [hr, hFT], by rw [hc, Nat.mul_one],
    fun b t k hbb ht hk => ?_⟩
  have h2 := hent b t 0 k (by omega) (by omega) hk
  rw [Nat.zero_mul, Nat.zero_add] at h2
  rw [h2]
  have h3 : srcIdx frames.rows 1 1 ((1 - 1) / 2) t 0 = t := by
    unfold srcIdx
    split_ifs <;> omega
  rw [h3]

/-- C5 witness: the identity law instantiated at a concrete `2 × 1`
input. -/
theorem C5_identity_law_witness :
    ∃ out, low_frame_rate ⟨1, 2, 1, fun _ t _ => (t + 1 : ℚ)⟩ 1 1 = some out ∧
      out.batch = 1 ∧ out.rows = 2 ∧ out.cols = 1 ∧
      ∀ b t k, b < 1 → t < 2 → k < 1 →
        out.entry b t k = (⟨1, 2, 1, fun _ t _ => (t + 1 : ℚ)⟩ : Arr3).entry b t k :=
  C5_identity_law ⟨1, 2, 1, fun _ t _ => (t + 1 : ℚ)⟩ (by decide) (by decide)

/-- C10: under `m ≥ 1`, `n ≥ 1`, `H ≥ 1`, `T ≥ m`, every source-frame
read of `low_frame_rate` — including the unclamped `frames[1+i]` of the
first-output-frame fill and `frames[j]` of the straddling branch — is in
bounds, so the call performs no out-of-bounds access and returns normally
(`isSome`; in this embedding every read is bounds-checked and any
out-of-bounds access would yield `none`). -/
theorem C10_in_bounds (frames : Arr3) (m n : ℕ)
    (hm : 1 ≤ m) (hn : 1 ≤ n) (hH : 1 ≤ frames.cols) (hmT : m ≤ frames.rows) :
    (low_frame_rate frames m n).isSome = true := by
  obtain ⟨out, he, -⟩ := low_frame_rate_spec frames m n hm hn hmT
  rw [he]; rfl

/-- C10 witness: a normal return at `T = 3`, `H = 1`, `m = 2`, `n = 1`. -/
theorem C10_in_bounds_witness :
    (low_frame_rate ⟨1, 3, 1, fun _ _ _ => 1⟩ 2 1).isSome = true :=
  C10_in_bounds ⟨1, 3, 1, fun _ _ _ => 1⟩ 2 1
    (by decide) (by decide) (by decide) (by decide)

/-! ### Claim theorems: `compute_decibel` -/

/-- An all-zero row has squared sum `0`, so its decibel statistic is
exactly `10 * log10(1e-6) = -60`. -/
theorem row_decibel_zero (row : List ℚ) (hz : ∀ x ∈ row, x = 0) :
    row_decibel row = -60 := by
  have hsum : (row.map (fun x => x ^ 2)).sum = 0 := by
    apply List.sum_eq_zero
    intro y hy
    obtain ⟨x, hx, rfl⟩ := List.mem_map.mp hy
    rw [hz x hx]
    norm_num
  unfold row_decibel
  rw [hsum]
  have h6 : ((0 : ℚ) : ℝ) + 1e-6 = (10 : ℝ) ^ ((-6 : ℤ) : ℝ) := by
    rw [Real.rpow_intCast]
    norm_num
  rw [h6, Real.logb_rpow (by norm_num) (by norm_num)]
  norm_num

/-- C6: for a `[T, H]` input with `H ≥ 1`, `compute_decibel` returns a
`[T, 1]` column whose row `i` is `10 * log10(Σ_k frames[i,k]^2 + 1e-6)`;
an all-zero row yields exactly `-60` (f32 arithmetic idealised over
`ℚ`/`ℝ`). -/
theorem C6_decibel_postcondition (frames : List (List ℚ)) (H : ℕ)
    (hH : 1 ≤ H) (hw : ∀ row ∈ frames, row.length = H) :
    ∃ out, compute_decibel frames = some out ∧
      out.length = frames.length ∧
      (∀ row ∈ out, row.length = 1) ∧
      (∀ (i : ℕ) (row : List ℚ), frames[i]? = some row →
        out[i]? = some [10 * Real.logb 10
          ((((row.map (fun x => x ^ 2)).sum : ℚ) : ℝ) + 1e-6)]) ∧
      (∀ (i : ℕ) (row : List ℚ), frames[i]? = some row → (∀ x ∈ row, x = 0) →
        out[i]? = some [(-60 : ℝ)]) := by
  refine ⟨(frames.map row_decibel).map (fun x => [x]), ?_, ?_, ?_, ?_, ?_⟩
  · unfold compute_decibel
    rw [if_pos (List.length_map _ _)]
  · rw [List.length_map, List.length_map]
  · intro row hrow
    obtain ⟨x, -, rfl⟩ := List.mem_map.mp hrow
    rfl
  · intro i row hfr
    rw [List.getElem?_map, List.getElem?_map, hfr]
    show some [row_decibel row] = _
    rw [row_decibel, mul_comm]
  · intro i row hfr hz
    rw [List.getElem?_map, List.getElem?_map, hfr]
    show some [row_decibel row] = _
    rw [row_decibel_zero row hz]

/-- C6 witness: the postcondition instantiated at the single frame
`[3, 4]` (Scenario C's input). -/
theorem C6_decibel_postcondition_witness :
    ∃ out, compute_decibel [[(3 : ℚ), 4]] = some out ∧
      out.length = ([[(3 : ℚ), 4]] : List (List ℚ)).length ∧
      (∀ row ∈ out, row.length = 1) ∧
      (∀ (i : ℕ) (row : List ℚ), ([[(3 : ℚ), 4]] : List (List ℚ))[i]? = some row →
        out[i]? = some [10 * Real.logb 10
          ((((row.map (fun x => x ^ 2)).sum : ℚ) : ℝ) + 1e-6)]) ∧
      (∀ (i : ℕ) (row : List ℚ), ([[(3 : ℚ), 4]] : List (List ℚ))[i]? = some row →
        (∀ x ∈ row, x = 0) → out[i]? = some [(-60 : ℝ)]) :=
  C6_decibel_postcondition [[(3 : ℚ), 4]] 2 (by norm_num) (by simp)

/-- C7 (counterexample to the claim as stated): the claim requires an
`InvalidShape` failure when `H = 0`, but on the one-frame width-0 input
the call succeeds. -/
theorem C7_counterexample :
    (compute_decibel [([] : List ℚ)]).isSome = true := by
  simp [compute_decibel]

/-- C7 (amended): `compute_decibel` has no error path for any input
shape — it succeeds with one output row per input row even when
`H = 0`. -/
theorem C7_no_error (frames : List (List ℚ)) :
    ∃ out, compute_decibel frames = some out ∧
      out.length = frames.length := by
  refine ⟨(frames.map row_decibel).map (fun x => [x]), ?_, ?_⟩
  · unfold compute_decibel
    rw [if_pos (List.length_map _ _)]
  · rw [List.length_map, List.length_map]

/-- C8: strict monotonicity of the decibel statistic — for equal-width
rows with `sum(a²) > sum(b²)`, `compute_decibel`'s per-row value
satisfies `decibel(a) > decibel(b)`. -/
theorem C8_monotonicity (a b : List ℚ) (hlen : a.length = b.length)
    (hH : 1 ≤ a.length)
    (hgt : (a.map (fun x => x ^ 2)).sum > (b.map (fun x => x ^ 2)).sum) :
    row_decibel a > row_decibel b := by
  have hnn : (0 : ℚ) ≤ (b.map (fun x => x ^ 2)).sum := by
    apply List.sum_nonneg
    intro y hy
    obtain ⟨x, -, rfl⟩ := List.mem_map.mp hy
    positivity
  have hnnR : (0 : ℝ) ≤ (((b.map (fun x => x ^ 2)).sum : ℚ) : ℝ) := by
    exact_mod_cast hnn
  have hltR : (((b.map (fun x => x ^ 2)).sum : ℚ) : ℝ) <
      (((a.map (fun x => x ^ 2)).sum : ℚ) : ℝ) := by
    exact_mod_cast hgt
  have heps : (0 : ℝ) < 1e-6 := by norm_num
  unfold row_decibel
  apply mul_lt_mul_of_pos_right _ (by norm_num : (0 : ℝ) < 10)
  apply Real.logb_lt_logb (by norm_num : (1 : ℝ) < 10)
  · linarith
  · linarith

/-- C8 witness: `decibel([1]) > decibel([0])`. -/
theorem C8_monotonicity_witness :
    row_decibel [(1 : ℚ)] > row_decibel [(0 : ℚ)] :=
  C8_monotonicity [(1 : ℚ)] [(0 : ℚ)] rfl (by norm_num) (by norm_num)
